import Mathlib

/-!
Shallow embedding of `src/index.ts` of the roo-code-memory-bank MCP server
(the memory-bank file operations: initialize, check status, read file,
append entry), together with theorems settling the specification claims.

File contents and file names are modelled as `List Char` (JavaScript
strings are sequences of code units; the characters involved here are all
in the basic plane, so a character list is a faithful model).  Each tool
handler becomes a pure function from its input and the current filesystem
state to a result and a new filesystem state; the current wall-clock
timestamp (`getCurrentTimestamp()` in the source) is passed as an explicit
parameter.
-/

/-- A JavaScript string, modelled as a list of characters. -/
abbrev Str := List Char

namespace MemoryBank

/-- JavaScript whitespace, as consumed by `String.prototype.trimStart` /
`trimEnd`.  This program only ever manipulates ASCII markdown text, so the
ASCII whitespace characters are modelled. -/
def isWS (c : Char) : Bool :=
  c = ' ' || c = '\t' || c = '\n' || c = '\r' || c = '\x0b' || c = '\x0c'

/-- `s.trimStart()`: drop leading whitespace. -/
def trimStart (s : Str) : Str := s.dropWhile isWS

/-- `s.trimEnd()`: drop trailing whitespace. -/
def trimEnd (s : Str) : Str := (s.reverse.dropWhile isWS).reverse

/-- Boolean test that `n` is a prefix of `h` (character-by-character). -/
def isPre : Str → Str → Bool
  | [], _ => true
  | _ :: _, [] => false
  | a :: as, b :: bs => if a = b then isPre as bs else false

/-- Index of the first occurrence of `n` in `hay` (an occurrence at
index `i` means `n` is a prefix of `hay.drop i`), or `none`.  This is the
search performed by JavaScript `hay.indexOf(n)` (which returns `-1` for
`none`). -/
def findIdx0 (n : Str) : Str → Option Nat
  | [] => if isPre n [] then some 0 else none
  | c :: t =>
    if isPre n (c :: t) then some 0
    else (findIdx0 n t).map (· + 1)

/-- JavaScript `hay.indexOf(n, start)`: the start position is clamped to
the string length, and the first occurrence at an index `≥ start` is
returned. -/
def jsIndexOfFrom (hay n : Str) (start : Nat) : Option Nat :=
  let b := min start hay.length
  (findIdx0 n (hay.drop b)).map (· + b)

/-- Number of indices `i` at which `n` occurs in the second argument
(occurrences may overlap). -/
def countSub (n : Str) : Str → Nat
  | [] => if isPre n [] then 1 else 0
  | c :: t => (if isPre n (c :: t) then 1 else 0) + countSub n t

/-- JavaScript `s.replace(pat, repl)` with a plain-string pattern:
replace the first occurrence of `pat` (if any) by `repl`.  (The special
`$`-patterns JavaScript interprets inside `repl` never arise in this
program's replacement strings and are not modelled.) -/
def replaceFirst (s pat repl : Str) : Str :=
  match findIdx0 pat s with
  | none => s
  | some i => s.take i ++ repl ++ s.drop (i + pat.length)

/-- Specification-side predicate: `n` occurs in `s` at index `i`. -/
def occursAt (n s : Str) (i : Nat) : Prop := n <+: s.drop i

instance (n s : Str) (i : Nat) : Decidable (occursAt n s i) := by
  unfold occursAt; infer_instance

/-- Specification-side predicate: the first occurrence of `n` in `s` is at
index `i`. -/
def firstOccurrenceAt (n s : Str) (i : Nat) : Prop :=
  occursAt n s i ∧ ∀ j < i, ¬ occursAt n s j

instance (n s : Str) (i : Nat) : Decidable (firstOccurrenceAt n s i) := by
  unfold firstOccurrenceAt; exact instDecidableAnd

end MemoryBank

/-! ### Correctness of the string-search primitives -/

namespace MemoryBank

theorem isPre_iff {n h : Str} : isPre n h = true ↔ n <+: h := by
  induction n generalizing h with
  | nil => simp [isPre]
  | cons a as ih =>
    cases h with
    | nil => simp [isPre]
    | cons b bs =>
      rw [isPre]
      constructor
      · intro e
        split at e
        · subst ‹a = b›
          exact (List.cons_prefix_cons).mpr ⟨rfl, ih.mp e⟩
        · cases e
      · intro e
        obtain ⟨rfl, htl⟩ := (List.cons_prefix_cons).mp e
        simp [ih.mpr htl]

theorem occursAt_zero {n s : Str} : occursAt n s 0 ↔ n <+: s := by
  simp [occursAt]

theorem occursAt_succ_cons {n t : Str} {c : Char} {k : Nat} :
    occursAt n (c :: t) (k + 1) ↔ occursAt n t k := by
  simp [occursAt]

theorem occursAt_nil {n : Str} {i : Nat} (h : occursAt n [] i) : n = [] := by
  simpa [occursAt] using h

theorem findIdx0_occurs {n h : Str} {i : Nat} (e : findIdx0 n h = some i) :
    occursAt n h i := by
  induction h generalizing i with
  | nil =>
    rw [findIdx0] at e
    split at e
    · cases e
      exact occursAt_zero.mpr (isPre_iff.mp ‹_›)
    · cases e
  | cons c t ih =>
    rw [findIdx0] at e
    split at e
    · cases e
      exact occursAt_zero.mpr (isPre_iff.mp ‹_›)
    · cases ht : findIdx0 n t with
      | none => rw [ht] at e; cases e
      | some j =>
        rw [ht] at e
        cases e
        exact occursAt_succ_cons.mpr (ih ht)

theorem findIdx0_min {n h : Str} {i : Nat} (e : findIdx0 n h = some i) :
    ∀ j < i, ¬ occursAt n h j := by
  induction h generalizing i with
  | nil =>
    rw [findIdx0] at e
    split at e
    · cases e; omega
    · cases e
  | cons c t ih =>
    rw [findIdx0] at e
    split at e
    · cases e; omega
    · cases ht : findIdx0 n t with
      | none => rw [ht] at e; cases e
      | some m =>
        rw [ht] at e
        have hi : i = m + 1 := by simpa using e.symm
        subst hi
        intro j hj
        cases j with
        | zero =>
          intro hocc
          exact ‹¬ isPre n (c :: t) = true› (isPre_iff.mpr (occursAt_zero.mp hocc))
        | succ k =>
          intro hocc
          exact ih ht k (by omega) (occursAt_succ_cons.mp hocc)

theorem findIdx0_complete {n h : Str} {i : Nat} (hc : occursAt n h i) :
    ∃ j, findIdx0 n h = some j ∧ j ≤ i := by
  induction h generalizing i with
  | nil =>
    have : n = [] := occursAt_nil hc
    subst this
    exact ⟨0, by simp [findIdx0, isPre], Nat.zero_le _⟩
  | cons c t ih =>
    by_cases hp : isPre n (c :: t) = true
    · exact ⟨0, by simp [findIdx0, hp], Nat.zero_le _⟩
    · cases i with
      | zero => exact absurd (isPre_iff.mpr (occursAt_zero.mp hc)) hp
      | succ k =>
        obtain ⟨j, hj, hle⟩ := ih (occursAt_succ_cons.mp hc)
        exact ⟨j + 1, by simp [findIdx0, hp, hj], by omega⟩

theorem findIdx0_none_iff {n h : Str} :
    findIdx0 n h = none ↔ ∀ i, ¬ occursAt n h i := by
  constructor
  · intro e i hocc
    obtain ⟨j, hj, _⟩ := findIdx0_complete hocc
    rw [e] at hj; cases hj
  · intro hall
    cases e : findIdx0 n h with
    | none => rfl
    | some j => exact absurd (findIdx0_occurs e) (hall j)

theorem findIdx0_iff_first {n h : Str} {i : Nat} :
    findIdx0 n h = some i ↔ firstOccurrenceAt n h i := by
  constructor
  · intro e
    exact ⟨findIdx0_occurs e, findIdx0_min e⟩
  · rintro ⟨hocc, hmin⟩
    obtain ⟨j, hj, hle⟩ := findIdx0_complete hocc
    rcases Nat.lt_or_ge j i with hlt | hge
    · exact absurd (findIdx0_occurs hj) (hmin j hlt)
    · have : j = i := by omega
      rw [← this]; exact hj

end MemoryBank

/-! ### Occurrence-counting lemmas -/

namespace MemoryBank

theorem isPre_nil_iff {n : Str} : isPre n [] = true ↔ n = [] := by
  cases n <;> simp [isPre]

theorem countSub_pos_of_occurs {n s : Str} {i : Nat} (h : occursAt n s i) :
    1 ≤ countSub n s := by
  induction s generalizing i with
  | nil =>
    have : n = [] := occursAt_nil h
    subst this
    simp [countSub, isPre]
  | cons c t ih =>
    cases i with
    | zero =>
      rw [countSub]
      have : isPre n (c :: t) = true := isPre_iff.mpr (occursAt_zero.mp h)
      simp [this]
    | succ k =>
      rw [countSub]
      have := ih (occursAt_succ_cons.mp h)
      omega

theorem countSub_eq_zero_iff {n s : Str} :
    countSub n s = 0 ↔ ∀ i, ¬ occursAt n s i := by
  constructor
  · intro e i hocc
    have := countSub_pos_of_occurs hocc
    omega
  · intro hall
    induction s with
    | nil =>
      rw [countSub]
      split
      · exact absurd (occursAt_zero.mpr (isPre_iff.mp ‹_›)) (hall 0)
      · rfl
    | cons c t ih =>
      rw [countSub]
      have h0 : ¬ isPre n (c :: t) = true := fun hp =>
        hall 0 (occursAt_zero.mpr (isPre_iff.mp hp))
      have ht : countSub n t = 0 :=
        ih (fun k hk => hall (k + 1) (occursAt_succ_cons.mpr hk))
      simp [h0, ht]

theorem mem_of_occursAt {n s : Str} {i : Nat} (h : occursAt n s i) :
    ∀ c ∈ n, c ∈ s := by
  intro c hc
  have h1 : c ∈ s.drop i := h.subset hc
  exact (List.drop_subset i s) h1

theorem countSub_eq_zero_of_missing {n s : Str} {c : Char}
    (hin : c ∈ n) (hout : c ∉ s) : countSub n s = 0 :=
  countSub_eq_zero_iff.mpr (fun _ hocc => hout (mem_of_occursAt hocc c hin))

theorem isPre_append_excl {n A B : Str} {c : Char} (hc : c ∉ n) :
    isPre n (A ++ c :: B) = isPre n A := by
  induction n generalizing A with
  | nil => simp [isPre]
  | cons a as ih =>
    cases A with
    | nil =>
      have : a ≠ c := fun h => hc (h ▸ List.mem_cons_self a as)
      simp [isPre, this]
    | cons b A' =>
      have : c ∉ as := fun h => hc (List.mem_cons_of_mem a h)
      simp only [List.cons_append, isPre]
      split
      · exact ih this
      · rfl

theorem countSub_split {n A B : Str} {c : Char} (hc : c ∉ n) :
    countSub n (A ++ c :: B) = countSub n A + countSub n B := by
  induction A with
  | nil =>
    have h2 : isPre n (c :: B) = isPre n [] := by
      simpa using isPre_append_excl (A := ([] : Str)) (B := B) hc
    simp only [List.nil_append, countSub, h2]
  | cons a A' ih =>
    have h2 : isPre n (a :: (A' ++ c :: B)) = isPre n (a :: A') := by
      simpa using isPre_append_excl (A := a :: A') (B := B) hc
    calc countSub n ((a :: A') ++ c :: B)
        = (if isPre n (a :: (A' ++ c :: B)) = true then 1 else 0)
            + countSub n (A' ++ c :: B) := rfl
      _ = (if isPre n (a :: A') = true then 1 else 0)
            + (countSub n A' + countSub n B) := by rw [h2, ih]
      _ = countSub n (a :: A') + countSub n B := by
          rw [show countSub n (a :: A') =
            (if isPre n (a :: A') = true then 1 else 0) + countSub n A' from rfl]
          omega

theorem isPre_extend {n X B : Str} (h : isPre n X = true) :
    isPre n (X ++ B) = true :=
  isPre_iff.mpr ((isPre_iff.mp h).trans (List.prefix_append X B))

theorem countSub_le_append (n A B : Str) :
    countSub n A ≤ countSub n (A ++ B) := by
  induction A with
  | nil =>
    rw [countSub, List.nil_append]
    split
    · have : n = [] := isPre_nil_iff.mp ‹_›
      subst this
      exact countSub_pos_of_occurs (i := 0) (occursAt_zero.mpr List.nil_prefix)
    · exact Nat.zero_le _
  | cons a A' ih =>
    simp only [List.cons_append, countSub]
    have hbit : (if isPre n (a :: A') = true then 1 else 0) ≤
        (if isPre n (a :: (A' ++ B)) = true then 1 else 0) := by
      by_cases hp : isPre n (a :: A') = true
      · have hext : isPre n ((a :: A') ++ B) = true := isPre_extend hp
        simp only [List.cons_append] at hext
        simp [hp, hext]
      · simp [hp]
    exact Nat.add_le_add hbit ih

theorem countSub_eq_zero_of_short {n s : Str} (h : s.length < n.length) :
    countSub n s = 0 := by
  induction s with
  | nil =>
    rw [countSub]
    have : ¬ isPre n [] = true := by
      intro hp
      have := isPre_nil_iff.mp hp
      subst this
      simp at h
    simp [this]
  | cons c t ih =>
    rw [countSub]
    have h1 : ¬ isPre n (c :: t) = true := by
      intro hp
      have := (isPre_iff.mp hp).length_le
      simp at h this
      omega
    have h2 : countSub n t = 0 := ih (by simp at h ⊢; omega)
    simp [h1, h2]

theorem countSub_self {n : Str} (h : n ≠ []) : countSub n n = 1 := by
  cases n with
  | nil => exact absurd rfl h
  | cons a as =>
    rw [countSub]
    have h1 : isPre (a :: as) (a :: as) = true := isPre_iff.mpr (List.prefix_refl _)
    have h2 : countSub (a :: as) as = 0 :=
      countSub_eq_zero_of_short (by simp)
    simp [h1, h2]

theorem two_le_countSub {n s : Str} {i j : Nat} (hn : n ≠ [])
    (hi : occursAt n s i) (hj : occursAt n s j) (hij : i < j) :
    2 ≤ countSub n s := by
  induction s generalizing i j with
  | nil => exact absurd (occursAt_nil hi) hn
  | cons c t ih =>
    cases i with
    | zero =>
      cases j with
      | zero => omega
      | succ k =>
        rw [countSub]
        have hb : isPre n (c :: t) = true := isPre_iff.mpr (occursAt_zero.mp hi)
        have ht : 1 ≤ countSub n t := countSub_pos_of_occurs (occursAt_succ_cons.mp hj)
        simp [hb]; omega
    | succ m =>
      cases j with
      | zero => omega
      | succ k =>
        rw [countSub]
        have := ih (occursAt_succ_cons.mp hi) (occursAt_succ_cons.mp hj) (by omega)
        omega

theorem findIdx0_of_count_one {n s : Str} {p : Nat} (hn : n ≠ [])
    (hcount : countSub n s = 1) (hocc : occursAt n s p) :
    findIdx0 n s = some p := by
  obtain ⟨j, hj, hle⟩ := findIdx0_complete hocc
  rcases Nat.lt_or_ge j p with hlt | hge
  · have := two_le_countSub hn (findIdx0_occurs hj) hocc hlt
    omega
  · have : j = p := by omega
    rw [← this]; exact hj

theorem occursAt_of_append {n A B : Str} : occursAt n (A ++ (n ++ B)) A.length := by
  unfold occursAt
  rw [List.drop_left]
  exact List.prefix_append n B

end MemoryBank

/-! ### Trimming lemmas -/

namespace MemoryBank

theorem dropWhile_append_cons {p : Char → Bool} {c : Char} (hc : p c = false)
    (L M : Str) : List.dropWhile p (L ++ c :: M) = List.dropWhile p L ++ c :: M := by
  induction L with
  | nil => simp [List.dropWhile, hc]
  | cons a L' ih =>
    by_cases ha : p a = true
    · simp [List.dropWhile, ha, ih]
    · have ha' : p a = false := by simpa using ha
      simp [List.dropWhile, ha']

theorem trimEnd_append_cons {c : Char} (hc : isWS c = false) (A B : Str) :
    trimEnd (A ++ c :: B) = A ++ c :: trimEnd B := by
  unfold trimEnd
  rw [show A ++ c :: B = A ++ [c] ++ B by simp]
  rw [List.reverse_append, List.reverse_append]
  simp only [List.reverse_cons, List.reverse_nil, List.nil_append]
  rw [show ([c] ++ A.reverse) = c :: A.reverse by simp]
  rw [show B.reverse ++ c :: A.reverse = B.reverse ++ c :: A.reverse from rfl]
  rw [dropWhile_append_cons hc]
  simp

theorem dropWhile_suffix_self (p : Char → Bool) (l : Str) :
    ∃ t, t ++ List.dropWhile p l = l := by
  induction l with
  | nil => exact ⟨[], rfl⟩
  | cons a l' ih =>
    by_cases ha : p a = true
    · obtain ⟨t, ht⟩ := ih
      exact ⟨a :: t, by simp [List.dropWhile, ha, ht]⟩
    · have ha' : p a = false := by simpa using ha
      exact ⟨[], by simp [List.dropWhile, ha']⟩

theorem trimEnd_is_prefix (s : Str) : trimEnd s <+: s := by
  unfold trimEnd
  obtain ⟨t, ht⟩ := dropWhile_suffix_self isWS s.reverse
  refine ⟨t.reverse, ?_⟩
  have := congrArg List.reverse ht
  simpa using this

end MemoryBank

/-! ### The memory-bank server: data model

State of the `memory-bank` directory and its files.  A file is either
readable with some text content, or present-but-unreadable (any I/O
failure other than non-existence, e.g. permissions); `fs.access` succeeds
on both.  Write failures other than on unreadable entries are not
modelled (no claim concerns them). -/

namespace MemoryBank

/-- A JavaScript value as received in a tool-call argument object. -/
inductive JSVal
  | jstr (s : Str)
  | jnum (n : Int)
  | jbool (b : Bool)
  | jnull
deriving DecidableEq

/-- `!v || typeof v !== 'string'` is false exactly when `v` is a
non-empty string; in that case return it. -/
def validStr : Option JSVal → Option Str
  | some (.jstr s) => if s = [] then none else some s
  | _ => none

inductive FileEntry
  | content (text : Str)
  | unreadable (errMsg : Str)
deriving DecidableEq

structure FSState where
  dirExists : Bool
  files : List (Str × FileEntry)
deriving DecidableEq

def lookupFile (files : List (Str × FileEntry)) (name : Str) : Option FileEntry :=
  match files with
  | [] => none
  | (n, v) :: rest => if n = name then some v else lookupFile rest name

def setFile (files : List (Str × FileEntry)) (name : Str) (e : FileEntry) :
    List (Str × FileEntry) :=
  match files with
  | [] => [(name, e)]
  | (n, v) :: rest =>
    if n = name then (name, e) :: rest else (n, v) :: setFile rest name e

inductive ReadOutcome
  | ok (text : Str)
  | enoent
  | failed (msg : Str)
deriving DecidableEq

/-- `fs.readFile`: content, ENOENT, or another failure. -/
def readFileFS (fs : FSState) (name : Str) : ReadOutcome :=
  match lookupFile fs.files name with
  | some (.content t) => .ok t
  | some (.unreadable m) => .failed m
  | none => .enoent

/-- `fs.writeFile`: replaces (or creates) the file's content; fails on an
unreadable (inaccessible) entry. -/
def writeFileFS (fs : FSState) (name : Str) (text : Str) : Except Str FSState :=
  match lookupFile fs.files name with
  | some (.unreadable m) => .error m
  | _ => .ok { fs with files := setFile fs.files name (.content text) }

/-- `fs.appendFile`: appends to the file, creating it when absent; fails
on an unreadable (inaccessible) entry. -/
def appendFileFS (fs : FSState) (name : Str) (text : Str) : Except Str FSState :=
  match lookupFile fs.files name with
  | some (.content t) =>
    .ok { fs with files := setFile fs.files name (.content (t ++ text)) }
  | some (.unreadable m) => .error m
  | none => .ok { fs with files := setFile fs.files name (.content text) }

/-- `ensureMemoryBankDir`: `fs.access` the directory, `fs.mkdir` it if
that fails. -/
def ensureMemoryBankDir (fs : FSState) : FSState := { fs with dirExists := true }

end MemoryBank

/-! ### Constants from the source -/

namespace MemoryBank

/-- The placeholder the source tries to substitute the timestamp for
(`content.replace('YYYY-MM-DD HH:MM:SS', getCurrentTimestamp())`). -/
def timestampToken : Str := "YYYY-MM-DD HH:MM:SS".data

/-- `INITIAL_FILES`, in object-literal (and hence `Object.entries`)
order. -/
def INITIAL_FILES : List (Str × Str) := [
  ("productContext.md".data,
   "# Product Context\n\nThis file provides a high-level overview...\n\n*".data),
  ("activeContext.md".data,
   "# Active Context\n\nThis file tracks the project's current status...\n\n*".data),
  ("progress.md".data,
   "# Progress\n\nThis file tracks the project's progress...\n\n*".data),
  ("decisionLog.md".data,
   "# Decision Log\n\nThis file records architectural and implementation decisions...\n\n*".data),
  ("systemPatterns.md".data,
   "# System Patterns *Optional*\n\nThis file documents recurring patterns...\n\n*".data)]

/-- `INITIAL_FILES[fileName]`. -/
def lookupTemplate (name : Str) : Option Str :=
  match INITIAL_FILES.find? (fun p => p.1 = name) with
  | some p => some p.2
  | none => none

end MemoryBank

/-! ### The four tool handlers -/

namespace MemoryBank

inductive InitResult
  | success (messages : List Str)
  | error (message : Str)
deriving DecidableEq

inductive StatusResult
  | ok (dirFound : Bool) (files : List Str)
  | error (message : Str)
deriving DecidableEq

inductive AppendResult
  | ok (message : Str)
  | error (message : Str)
deriving DecidableEq

/-- One iteration of the `for (const [fileName, template] of
Object.entries(INITIAL_FILES))` loop in `initializeMemoryBank`. -/
def initOneFile (brief : Option Str) (ts : Str) (fs : FSState) (msgs : List Str)
    (ft : Str × Str) : Except Str (FSState × List Str) :=
  match lookupFile fs.files ft.1 with
  | some _ =>
    .ok (fs, msgs ++ ["File ".data ++ ft.1 ++ " already exists.".data])
  | none =>
    let content := replaceFirst ft.2 timestampToken ts
    let content :=
      if ft.1 = "productContext.md".data then
        match brief with
        | some b =>
          if b = [] then content
          else replaceFirst content "...".data
            ("based on project brief:\n\n".data ++ b ++ "\n\n...".data)
        | none => content
      else content
    match writeFileFS fs ft.1 content with
    | .ok fs' => .ok (fs', msgs ++ ["Created file: ".data ++ ft.1])
    | .error m => .error m

def initLoop (brief : Option Str) (ts : Str) :
    List (Str × Str) → FSState → List Str → FSState × Except Str (List Str)
  | [], fs, msgs => (fs, .ok msgs)
  | ft :: rest, fs, msgs =>
    match initOneFile brief ts fs msgs ft with
    | .ok (fs', msgs') => initLoop brief ts rest fs' msgs'
    | .error m => (fs, .error m)

/-- `initializeMemoryBank(input)`.  `brief` is
`input?.project_brief_content` (restricted to the string-or-absent shapes;
`none` also covers a falsy value), `ts` is `getCurrentTimestamp()`. -/
def initializeMemoryBank (brief : Option Str) (ts : Str) (fs : FSState) :
    InitResult × FSState :=
  let fs1 := ensureMemoryBankDir fs
  match initLoop brief ts INITIAL_FILES fs1 [] with
  | (fs2, .ok msgs) => (.success msgs, fs2)
  | (fs2, .error m) => (.error m, fs2)

/-- `checkMemoryBankStatus()`: `fs.access` then `fs.readdir` filtered to
names ending in `.md`; any failure is reported as `exists: false` (the
`catch` branch), never as an error result. -/
def checkMemoryBankStatus (fs : FSState) : StatusResult :=
  if fs.dirExists then
    .ok true ((fs.files.map Prod.fst).filter (fun f => ".md".data.isSuffixOf f))
  else
    .ok false []

/-- `\n[${timestamp}] - ${entry}\n`. -/
def formatEntry (ts entry : Str) : Str :=
  "\n[".data ++ ts ++ "] - ".data ++ entry ++ "\n".data

/-- The body of `appendMemoryBankEntry` after `fileContent` has been
obtained (source lines 213-224): locate the header, then either splice
into the found section or append header and entry at the end. -/
def appendWithHeader (fs1 : FSState) (fileName sectionHeader formattedEntry
    fileContent : Str) : AppendResult × FSState :=
  match findIdx0 sectionHeader fileContent with
  | some headerIndex =>
    let insertIndex :=
      (jsIndexOfFrom fileContent "\n##".data
        (headerIndex + sectionHeader.length)).getD fileContent.length
    let updatedContent := trimEnd (fileContent.take insertIndex) ++
      '\n' :: (trimStart formattedEntry ++ fileContent.drop insertIndex)
    match writeFileFS fs1 fileName updatedContent with
    | .ok fs2 => (.ok ("Appended entry to ".data ++ fileName), fs2)
    | .error m =>
      (.error ("Failed to append to file ".data ++ fileName ++ ": ".data ++ m), fs1)
  | none =>
    match appendFileFS fs1 fileName
        ('\n' :: (sectionHeader ++ '\n' :: formattedEntry)) with
    | .ok fs2 => (.ok ("Appended entry to ".data ++ fileName), fs2)
    | .error m =>
      (.error ("Failed to append to file ".data ++ fileName ++ ": ".data ++ m), fs1)

structure AppendInput where
  file_name : Option JSVal
  entry : Option JSVal
  section_header : Option JSVal
deriving DecidableEq

/-- `appendMemoryBankEntry(input)` with `ts` standing for
`getCurrentTimestamp()`. -/
def appendMemoryBankEntry (input : AppendInput) (ts : Str) (fs : FSState) :
    AppendResult × FSState :=
  match validStr input.file_name with
  | none => (.error "Missing or invalid 'file_name' parameter.".data, fs)
  | some fileName =>
  match validStr input.entry with
  | none => (.error "Missing or invalid 'entry' parameter.".data, fs)
  | some entry =>
    let formattedEntry := formatEntry ts entry
    let fs1 := ensureMemoryBankDir fs
    match validStr input.section_header with
    | some sectionHeader =>
      match readFileFS fs1 fileName with
      | .ok fileContent =>
        appendWithHeader fs1 fileName sectionHeader formattedEntry fileContent
      | .enoent =>
        let fileContent :=
          match lookupTemplate fileName with
          | some tmpl => replaceFirst tmpl timestampToken ts
          | none => []
        appendWithHeader fs1 fileName sectionHeader formattedEntry fileContent
      | .failed m =>
        (.error ("Failed to append to file ".data ++ fileName ++ ": ".data ++ m), fs1)
    | none =>
      match appendFileFS fs1 fileName formattedEntry with
      | .ok fs2 => (.ok ("Appended entry to ".data ++ fileName), fs2)
      | .error m =>
        (.error ("Failed to append to file ".data ++ fileName ++ ": ".data ++ m), fs1)

end MemoryBank

/-! ### Path resolution for `path.join(MEMORY_BANK_PATH, fileName)`

`readMemoryBankFile` (line 170) and `appendMemoryBankEntry` (line 190)
both compute `path.join(MEMORY_BANK_PATH, fileName)` on the raw
caller-supplied name and hand the result to `fs` operations.  Paths are
modelled as lists of segments of an absolute path (`BASE_PATH` is
`process.cwd()`, an absolute path).  `path.join` concatenates its
arguments with `/` and then normalizes the result, resolving `.`, `..`
and empty segments. -/

namespace MemoryBank

/-- Split a file name on `/` (the posix separator `path.join` uses). -/
def splitOnSlash : Str → List Str
  | [] => [[]]
  | c :: t =>
    if c = '/' then [] :: splitOnSlash t
    else
      match splitOnSlash t with
      | [] => [[c]]
      | s :: rest => (c :: s) :: rest

/-- Normalization of an absolute path's segment list, as `path.join`
performs: empty and `.` segments vanish, `..` removes the preceding
segment (at the root it is dropped). -/
def normalizeSegs (segs : List Str) : List Str :=
  segs.foldl (fun acc seg =>
    if seg = [] ∨ seg = ".".data then acc
    else if seg = "..".data then acc.dropLast
    else acc ++ [seg]) []

def MEMORY_BANK_DIR_NAME : Str := "memory-bank".data

/-- The segment list of `MEMORY_BANK_PATH = path.join(BASE_PATH,
MEMORY_BANK_DIR_NAME)`, for a base path given as (already normalized)
segments. -/
def memoryBankPath (basePath : List Str) : List Str :=
  basePath ++ [MEMORY_BANK_DIR_NAME]

/-- The segment list of the file path accessed for a caller-supplied
`file_name`: `path.join(MEMORY_BANK_PATH, fileName)`. -/
def joinedPath (basePath : List Str) (fileName : Str) : List Str :=
  normalizeSegs (memoryBankPath basePath ++ splitOnSlash fileName)

/-- A path lies inside the memory-bank directory when the directory's
segments are a proper prefix of the path's segments. -/
def insideMemoryBank (basePath : List Str) (p : List Str) : Prop :=
  memoryBankPath basePath <+: p ∧ p ≠ memoryBankPath basePath

instance (basePath p : List Str) : Decidable (insideMemoryBank basePath p) := by
  unfold insideMemoryBank; exact instDecidableAnd

end MemoryBank

/-! ### Bridging lemmas: specification-side predicates vs the search code -/

namespace MemoryBank

theorem occursAt_drop {n t : Str} {s k : Nat} :
    occursAt n (t.drop s) k ↔ occursAt n t (s + k) := by
  unfold occursAt
  rw [List.drop_drop, Nat.add_comm]

theorem occursAt_le_length {n t : Str} {i : Nat} (hn : n ≠ [])
    (h : occursAt n t i) : i + n.length ≤ t.length := by
  unfold occursAt at h
  have h1 := h.length_le
  rw [List.length_drop] at h1
  have h2 : 1 ≤ n.length := by
    cases n with
    | nil => exact absurd rfl hn
    | cons a as => simp
  omega

theorem jsIndexOfFrom_eq_some {t n : Str} {start endOff : Nat}
    (hs : start ≤ t.length) (h1 : start ≤ endOff) (h2 : occursAt n t endOff)
    (h3 : ∀ j < endOff, start ≤ j → ¬ occursAt n t j) :
    jsIndexOfFrom t n start = some endOff := by
  unfold jsIndexOfFrom
  have hmin : min start t.length = start := Nat.min_eq_left hs
  rw [hmin]
  have hocc : occursAt n (t.drop start) (endOff - start) := by
    rw [occursAt_drop, show start + (endOff - start) = endOff by omega]
    exact h2
  have hmin' : ∀ j' < endOff - start, ¬ occursAt n (t.drop start) j' := by
    intro j' hj' hc
    exact h3 (start + j') (by omega) (by omega) (occursAt_drop.mp hc)
  show Option.map (fun x => x + start) (findIdx0 n (t.drop start)) = some endOff
  rw [findIdx0_iff_first.mpr ⟨hocc, hmin'⟩]
  simp
  omega

theorem jsIndexOfFrom_eq_none {t n : Str} {start : Nat} (hs : start ≤ t.length)
    (h : ∀ j, start ≤ j → ¬ occursAt n t j) :
    jsIndexOfFrom t n start = none := by
  unfold jsIndexOfFrom
  have hmin : min start t.length = start := Nat.min_eq_left hs
  rw [hmin]
  show Option.map (fun x => x + start) (findIdx0 n (t.drop start)) = none
  rw [findIdx0_none_iff.mpr (fun k hc => h (start + k) (by omega) (occursAt_drop.mp hc))]
  rfl

/-- Specification-side section boundary (spec §4.2): `endOff` is the
offset of the first occurrence of the literal substring `"\n##"` at or
after `start`, or the length of the text if there is none. -/
def sectionEndAt (t : Str) (start endOff : Nat) : Prop :=
  (start ≤ endOff ∧ occursAt "\n##".data t endOff ∧
    ∀ j < endOff, start ≤ j → ¬ occursAt "\n##".data t j) ∨
  ((∀ j, start ≤ j → ¬ occursAt "\n##".data t j) ∧ endOff = t.length)

theorem sectionEndAt_insertIndex {t : Str} {start endOff : Nat}
    (hs : start ≤ t.length) (h : sectionEndAt t start endOff) :
    (jsIndexOfFrom t "\n##".data start).getD t.length = endOff := by
  rcases h with ⟨h1, h2, h3⟩ | ⟨h1, h2⟩
  · rw [jsIndexOfFrom_eq_some hs h1 h2 h3]; rfl
  · rw [jsIndexOfFrom_eq_none hs h1, h2]; rfl

end MemoryBank

/-! ### Unfolding lemmas for `appendMemoryBankEntry` -/

namespace MemoryBank

theorem appendEntry_header_read (fs : FSState) (ts fileName entry header t : Str)
    (hfn : fileName ≠ []) (hen : entry ≠ []) (hh : header ≠ [])
    (hfile : lookupFile fs.files fileName = some (.content t)) :
    appendMemoryBankEntry
        ⟨some (.jstr fileName), some (.jstr entry), some (.jstr header)⟩ ts fs =
      appendWithHeader (ensureMemoryBankDir fs) fileName header
        (formatEntry ts entry) t := by
  unfold appendMemoryBankEntry
  simp [validStr, hfn, hen, hh, readFileFS, ensureMemoryBankDir, hfile]

theorem appendWithHeader_found (fs1 : FSState) (fileName header fe t : Str)
    (i : Nat) (hidx : findIdx0 header t = some i)
    (hwr : lookupFile fs1.files fileName = some (.content t)) :
    appendWithHeader fs1 fileName header fe t =
      (.ok ("Appended entry to ".data ++ fileName),
       { fs1 with files := setFile fs1.files fileName (.content (
          trimEnd (t.take ((jsIndexOfFrom t "\n##".data
              (i + header.length)).getD t.length)) ++
          '\n' :: (trimStart fe ++ t.drop ((jsIndexOfFrom t "\n##".data
              (i + header.length)).getD t.length)))) }) := by
  unfold appendWithHeader
  rw [hidx]
  unfold writeFileFS
  rw [hwr]

theorem appendWithHeader_notfound (fs1 : FSState) (fileName header fe t : Str)
    (hidx : findIdx0 header t = none)
    (hwr : lookupFile fs1.files fileName = some (.content t)) :
    appendWithHeader fs1 fileName header fe t =
      (.ok ("Appended entry to ".data ++ fileName),
       { fs1 with files := setFile fs1.files fileName (.content
          (t ++ '\n' :: (header ++ '\n' :: fe))) }) := by
  unfold appendWithHeader
  rw [hidx]
  unfold appendFileFS
  rw [hwr]

end MemoryBank

/-! ### Claim C1 -/

namespace MemoryBank

/-- C1: for every existing file text, formatted entry and section header
occurring in the text (first occurrence at offset `i`), `appendEntry`
writes back exactly: the prefix of the text up to `endOff` (the offset of
the first occurrence of the literal substring `"\n##"` at or after
`i + length header`, or the text's length if there is none) with trailing
whitespace trimmed, then a single newline, then the formatted entry with
leading whitespace trimmed, then the unmodified suffix of the text from
`endOff` onward. -/
theorem C1_append_splices_found_section (fs : FSState)
    (ts fileName entry header t : Str) (i endOff : Nat)
    (hfn : fileName ≠ []) (hen : entry ≠ []) (hh : header ≠ [])
    (hfile : lookupFile fs.files fileName = some (.content t))
    (hfirst : firstOccurrenceAt header t i)
    (hend : sectionEndAt t (i + header.length) endOff) :
    appendMemoryBankEntry
        ⟨some (.jstr fileName), some (.jstr entry), some (.jstr header)⟩ ts fs =
      (.ok ("Appended entry to ".data ++ fileName),
       { dirExists := true,
         files := setFile fs.files fileName (.content
           (trimEnd (t.take endOff) ++
            '\n' :: (trimStart (formatEntry ts entry) ++ t.drop endOff))) }) := by
  rw [appendEntry_header_read fs ts fileName entry header t hfn hen hh hfile]
  have hidx : findIdx0 header t = some i := findIdx0_iff_first.mpr hfirst
  have hs : i + header.length ≤ t.length := occursAt_le_length hh hfirst.1
  have hfile' : lookupFile (ensureMemoryBankDir fs).files fileName =
      some (.content t) := hfile
  rw [appendWithHeader_found _ _ _ _ _ i hidx hfile']
  rw [sectionEndAt_insertIndex hs hend]
  rfl

/-- Closed instance of C1: all hypotheses checked by `decide` on a
concrete file, header and entry. -/
theorem C1_witness :
    firstOccurrenceAt "## A".data "## A\nx\n## B\ny".data 0 ∧
    sectionEndAt "## A\nx\n## B\ny".data (0 + ("## A".data).length) 6 ∧
    appendMemoryBankEntry
        ⟨some (.jstr "activeContext.md".data), some (.jstr "hello".data),
         some (.jstr "## A".data)⟩ "2025-01-01 00:00:00".data
        ⟨true, [("activeContext.md".data, .content "## A\nx\n## B\ny".data)]⟩ =
      (.ok ("Appended entry to ".data ++ "activeContext.md".data),
       { dirExists := true,
         files := setFile [("activeContext.md".data,
             .content "## A\nx\n## B\ny".data)] "activeContext.md".data (.content
           (trimEnd (("## A\nx\n## B\ny".data).take 6) ++
            '\n' :: (trimStart (formatEntry "2025-01-01 00:00:00".data
              "hello".data) ++ ("## A\nx\n## B\ny".data).drop 6))) }) :=
  ⟨by decide, Or.inl (by decide),
   C1_append_splices_found_section _ _ _ _ _ _ 0 6 (by decide) (by decide)
     (by decide) (by decide) (by decide) (Or.inl (by decide))⟩

end MemoryBank

/-! ### Claim C4 -/

namespace MemoryBank

/-- C4 counterexample: on the existing file text `"X\n"` with the absent
header `"## H"`, entry `"e"` and timestamp `2025-01-01 00:00:00`, the text
appended at the end is not `"\n## H\n[2025-01-01 00:00:00] - e\n"` as the
claim states: the formatted entry itself begins with a newline, so the
code appends `"\n## H\n\n[2025-01-01 00:00:00] - e\n"` (a blank line
between the header line and the entry). -/
theorem C4_counterexample :
    (appendMemoryBankEntry
      ⟨some (.jstr "f.md".data), some (.jstr "e".data), some (.jstr "## H".data)⟩
      "2025-01-01 00:00:00".data
      ⟨true, [("f.md".data, .content "X\n".data)]⟩).2.files ≠
    [("f.md".data,
      .content ("X\n".data ++ "\n## H\n[2025-01-01 00:00:00] - e\n".data))] := by
  decide

/-- C4 (amended): for every existing file whose text does not contain the
given section header, `appendEntry` appends exactly the text
`"\n<header>\n" ++ "\n[<timestamp>] - <entry>\n"` (the header line
followed by the formatted entry, which itself starts with a newline, so a
blank line separates them) at the end of the file, leaving all prior
content unchanged. -/
theorem C4_append_absent_header (fs : FSState)
    (ts fileName entry header t : Str)
    (hfn : fileName ≠ []) (hen : entry ≠ []) (hh : header ≠ [])
    (hfile : lookupFile fs.files fileName = some (.content t))
    (habsent : countSub header t = 0) :
    appendMemoryBankEntry
        ⟨some (.jstr fileName), some (.jstr entry), some (.jstr header)⟩ ts fs =
      (.ok ("Appended entry to ".data ++ fileName),
       { dirExists := true,
         files := setFile fs.files fileName (.content
           (t ++ '\n' :: (header ++ '\n' :: formatEntry ts entry))) }) := by
  rw [appendEntry_header_read fs ts fileName entry header t hfn hen hh hfile]
  have hidx : findIdx0 header t = none :=
    findIdx0_none_iff.mpr (countSub_eq_zero_iff.mp habsent)
  have hfile' : lookupFile (ensureMemoryBankDir fs).files fileName =
      some (.content t) := hfile
  rw [appendWithHeader_notfound _ _ _ _ _ hidx hfile']
  rfl

/-- Closed instance of the amended C4. -/
theorem C4_witness :
    countSub "## H".data "X\n".data = 0 ∧
    appendMemoryBankEntry
        ⟨some (.jstr "progress.md".data), some (.jstr "done".data),
         some (.jstr "## H".data)⟩ "2025-02-02 00:00:00".data
        ⟨true, [("progress.md".data, .content "X\n".data)]⟩ =
      (.ok ("Appended entry to ".data ++ "progress.md".data),
       { dirExists := true,
         files := setFile [("progress.md".data, .content "X\n".data)]
           "progress.md".data (.content ("X\n".data ++
             '\n' :: ("## H".data ++
               '\n' :: formatEntry "2025-02-02 00:00:00".data "done".data))) }) :=
  ⟨by decide, C4_append_absent_header _ _ _ _ _ _ (by decide) (by decide)
    (by decide) (by decide) (by decide)⟩

end MemoryBank

/-! ### Claims C7, C8, C9, C10 -/

namespace MemoryBank

/-- C7: `checkStatus` never produces an error result: for every
filesystem state it returns the `ok` shape, with `exists = true` and
exactly the directory entries whose name ends in `".md"` (in enumeration
order) when the directory is accessible, and `exists = false` with an
empty list otherwise. -/
theorem C7_checkStatus_never_errors (fs : FSState) :
    checkMemoryBankStatus fs =
      .ok fs.dirExists
        (if fs.dirExists then
          (fs.files.map Prod.fst).filter (fun f => ".md".data.isSuffixOf f)
        else []) := by
  unfold checkMemoryBankStatus
  by_cases h : fs.dirExists <;> simp [h]

/-- C8: whenever `file_name` or `entry` is missing, empty or not a
string, `appendEntry` returns a validation error result and leaves the
filesystem state (directory flag and all files) completely unchanged. -/
theorem C8_validation_no_fs_touch (input : AppendInput) (ts : Str) (fs : FSState)
    (hbad : validStr input.file_name = none ∨ validStr input.entry = none) :
    (appendMemoryBankEntry input ts fs).2 = fs ∧
    ((appendMemoryBankEntry input ts fs).1 =
        .error "Missing or invalid 'file_name' parameter.".data ∨
     (appendMemoryBankEntry input ts fs).1 =
        .error "Missing or invalid 'entry' parameter.".data) := by
  rcases hbad with h | h
  · simp only [appendMemoryBankEntry, h]
    exact ⟨trivial, Or.inl trivial⟩
  · cases hf : validStr input.file_name with
    | none =>
      simp only [appendMemoryBankEntry, hf]
      exact ⟨trivial, Or.inl trivial⟩
    | some fn =>
      simp only [appendMemoryBankEntry, hf, h]
      exact ⟨trivial, Or.inr trivial⟩

/-- Closed instance of C8 (empty `file_name`). -/
theorem C8_witness :
    (validStr (some (JSVal.jstr [])) = none ∨
     validStr (some (JSVal.jstr "x".data)) = none) ∧
    (appendMemoryBankEntry ⟨some (.jstr []), some (.jstr "x".data), none⟩
        "2025-01-01 00:00:00".data ⟨false, []⟩).2 = (⟨false, []⟩ : FSState) ∧
    ((appendMemoryBankEntry ⟨some (.jstr []), some (.jstr "x".data), none⟩
        "2025-01-01 00:00:00".data ⟨false, []⟩).1 =
        .error "Missing or invalid 'file_name' parameter.".data ∨
     (appendMemoryBankEntry ⟨some (.jstr []), some (.jstr "x".data), none⟩
        "2025-01-01 00:00:00".data ⟨false, []⟩).1 =
        .error "Missing or invalid 'entry' parameter.".data) :=
  ⟨Or.inl (by decide),
   C8_validation_no_fs_touch ⟨some (.jstr []), some (.jstr "x".data), none⟩
     "2025-01-01 00:00:00".data ⟨false, []⟩ (Or.inl (by decide))⟩

/-- C9: `appendEntry` without a section header (or with an empty-string
header) on a file that does not exist creates the file containing only
the formatted entry `"\n[<timestamp>] - <entry>\n"`; the
template-synthesis fallback is not applied on this path, so even a
canonical file created this way does not receive its registered
template. -/
theorem C9_no_header_creates_bare_entry (fs : FSState) (ts fileName entry : Str)
    (hdr : Option JSVal)
    (hfn : fileName ≠ []) (hen : entry ≠ [])
    (hhdr : hdr = none ∨ hdr = some (.jstr []))
    (habsent : lookupFile fs.files fileName = none) :
    appendMemoryBankEntry ⟨some (.jstr fileName), some (.jstr entry), hdr⟩ ts fs =
      (.ok ("Appended entry to ".data ++ fileName),
       { dirExists := true,
         files := setFile fs.files fileName
           (.content (formatEntry ts entry)) }) := by
  have hv : validStr hdr = none := by
    rcases hhdr with rfl | rfl <;> simp [validStr]
  have habsent' : lookupFile (ensureMemoryBankDir fs).files fileName = none :=
    habsent
  have hvf : validStr (some (.jstr fileName)) = some fileName := by
    simp [validStr, hfn]
  have hve : validStr (some (.jstr entry)) = some entry := by
    simp [validStr, hen]
  simp only [appendMemoryBankEntry, hvf, hve, hv, appendFileFS, habsent']
  rfl

/-- Closed instance of C9, on the canonical file `decisionLog.md`: the
created content is the bare formatted entry, not the registered
template. -/
theorem C9_witness :
    ("decisionLog.md".data ≠ ([] : Str)) ∧
    lookupFile ([] : List (Str × FileEntry)) "decisionLog.md".data = none ∧
    appendMemoryBankEntry
        ⟨some (.jstr "decisionLog.md".data), some (.jstr "chose X".data), none⟩
        "2025-03-03 12:00:00".data ⟨false, []⟩ =
      (.ok ("Appended entry to ".data ++ "decisionLog.md".data),
       { dirExists := true,
         files := setFile [] "decisionLog.md".data
           (.content (formatEntry "2025-03-03 12:00:00".data "chose X".data)) }) :=
  ⟨by decide, by decide,
   C9_no_header_creates_bare_entry ⟨false, []⟩ _ _ _ none (by decide) (by decide)
     (Or.inl rfl) (by decide)⟩

/-- C10: when `appendEntry` with a section header fails to read the
target file for a reason other than absence, it returns an error result
whose message contains both the file name and the underlying failure
message, and no write or append is performed (the file contents are
unchanged). -/
theorem C10_read_failure_propagates (fs : FSState) (ts fileName entry header m : Str)
    (hfn : fileName ≠ []) (hen : entry ≠ []) (hh : header ≠ [])
    (hfail : lookupFile fs.files fileName = some (.unreadable m)) :
    (appendMemoryBankEntry
        ⟨some (.jstr fileName), some (.jstr entry), some (.jstr header)⟩ ts fs).1 =
      .error ("Failed to append to file ".data ++ fileName ++ ": ".data ++ m) ∧
    fileName <:+: ("Failed to append to file ".data ++ fileName ++ ": ".data ++ m) ∧
    m <:+: ("Failed to append to file ".data ++ fileName ++ ": ".data ++ m) ∧
    (appendMemoryBankEntry
        ⟨some (.jstr fileName), some (.jstr entry), some (.jstr header)⟩ ts fs).2.files
      = fs.files := by
  have hfail' : lookupFile (ensureMemoryBankDir fs).files fileName =
      some (.unreadable m) := hfail
  have hvf : validStr (some (.jstr fileName)) = some fileName := by
    simp [validStr, hfn]
  have hve : validStr (some (.jstr entry)) = some entry := by
    simp [validStr, hen]
  have hvh : validStr (some (.jstr header)) = some header := by
    simp [validStr, hh]
  have key : appendMemoryBankEntry
      ⟨some (.jstr fileName), some (.jstr entry), some (.jstr header)⟩ ts fs =
      (.error ("Failed to append to file ".data ++ fileName ++ ": ".data ++ m),
       ensureMemoryBankDir fs) := by
    simp only [appendMemoryBankEntry, hvf, hve, hvh, readFileFS, hfail']
  refine ⟨by rw [key],
    ⟨"Failed to append to file ".data, ": ".data ++ m, by simp⟩,
    ⟨"Failed to append to file ".data ++ fileName ++ ": ".data, [], by simp⟩,
    by rw [key]; rfl⟩

/-- Closed instance of C10 with failure message `"EACCES"`. -/
theorem C10_witness :
    lookupFile [("activeContext.md".data, FileEntry.unreadable "EACCES".data)]
      "activeContext.md".data = some (.unreadable "EACCES".data) ∧
    (appendMemoryBankEntry
        ⟨some (.jstr "activeContext.md".data), some (.jstr "note".data),
         some (.jstr "## Now".data)⟩ "2025-04-04 00:00:00".data
        ⟨true, [("activeContext.md".data, .unreadable "EACCES".data)]⟩).1 =
      .error ("Failed to append to file ".data ++ "activeContext.md".data ++
        ": ".data ++ "EACCES".data) ∧
    (appendMemoryBankEntry
        ⟨some (.jstr "activeContext.md".data), some (.jstr "note".data),
         some (.jstr "## Now".data)⟩ "2025-04-04 00:00:00".data
        ⟨true, [("activeContext.md".data, .unreadable "EACCES".data)]⟩).2.files =
      [("activeContext.md".data, .unreadable "EACCES".data)] := by
  refine ⟨by decide, ?_, ?_⟩
  · exact (C10_read_failure_propagates _ _ _ _ _ _ (by decide) (by decide)
      (by decide) (by decide)).1
  · exact (C10_read_failure_propagates ⟨true,
      [("activeContext.md".data, .unreadable "EACCES".data)]⟩
      "2025-04-04 00:00:00".data "activeContext.md".data "note".data
      "## Now".data "EACCES".data (by decide) (by decide)
      (by decide) (by decide)).2.2.2

end MemoryBank

/-! ### Claims C2 and C3 -/

namespace MemoryBank

/-- C2 (code bug): the file path is computed as
`path.join(MEMORY_BANK_PATH, file_name)` on the raw caller-supplied name,
with no validation, so `file_name = "../escape.md"` resolves to a path
outside the memory-bank directory (a sibling of it inside the base
directory), while a plain name such as `"notes.md"` stays inside.  The
base path `home/user/project` stands for `process.cwd()`. -/
theorem C2_path_escape :
    joinedPath ["home".data, "user".data, "project".data] "../escape.md".data =
      ["home".data, "user".data, "project".data, "escape.md".data] ∧
    ¬ insideMemoryBank ["home".data, "user".data, "project".data]
      (joinedPath ["home".data, "user".data, "project".data]
        "../escape.md".data) ∧
    insideMemoryBank ["home".data, "user".data, "project".data]
      (joinedPath ["home".data, "user".data, "project".data] "notes.md".data) := by
  decide

/-- C3 (code bug): none of the five registered templates contains the
placeholder token `YYYY-MM-DD HH:MM:SS`, so the
`content.replace('YYYY-MM-DD HH:MM:SS', getCurrentTimestamp())` call in
`initializeMemoryBank` is a no-op, and a freshly created canonical file
consists of the template verbatim and does not contain the current
timestamp (evaluated for `activeContext.md` with timestamp
`2025-01-01 00:00:00`, starting from an empty directory). -/
theorem C3_template_lacks_timestamp_token :
    (∀ ft ∈ INITIAL_FILES, countSub timestampToken ft.2 = 0) ∧
    lookupFile (initializeMemoryBank none "2025-01-01 00:00:00".data
        ⟨false, []⟩).2.files "activeContext.md".data =
      some (.content
        "# Active Context\n\nThis file tracks the project's current status...\n\n*".data) ∧
    countSub "2025-01-01 00:00:00".data
      "# Active Context\n\nThis file tracks the project's current status...\n\n*".data
      = 0 := by
  decide

end MemoryBank

/-! ### Helpers for the double-append analysis -/

namespace MemoryBank

theorem not_mem_append {c : Char} {X Y : Str} (hx : c ∉ X) (hy : c ∉ Y) :
    c ∉ X ++ Y := by
  intro hm
  rcases List.mem_append.mp hm with h | h
  · exact hx h
  · exact hy h

theorem trimStart_two {c1 c2 : Char} (h1 : isWS c1 = true) (h2 : isWS c2 = false)
    (rest : Str) : trimStart (c1 :: c2 :: rest) = c2 :: rest := by
  unfold trimStart
  simp [List.dropWhile, h1, h2]

theorem no_occurs_from_of_drop {n t : Str} {start : Nat}
    (h : ∀ k, ¬ occursAt n (t.drop start) k) :
    ∀ j, start ≤ j → ¬ occursAt n t j := by
  intro j hj hocc
  apply h (j - start)
  rw [occursAt_drop, show start + (j - start) = j by omega]
  exact hocc

theorem lookupFile_setFile (files : List (Str × FileEntry)) (name : Str)
    (e : FileEntry) : lookupFile (setFile files name e) name = some e := by
  induction files with
  | nil => simp [setFile, lookupFile]
  | cons p rest ih =>
    obtain ⟨n, v⟩ := p
    by_cases hp : n = name
    · simp [setFile, hp, lookupFile]
    · simp [setFile, hp, lookupFile, ih]

end MemoryBank

/-! ### Claim C5 -/

namespace MemoryBank

/-- C5 counterexample: file text `"A\n"` (header `"## D"` absent), first
entry `"x"`, second entry `"see ## D"` — which contains the header text.
After the two `appendEntry` calls under `"## D"` the resulting text
contains the header twice, falsifying "the resulting text contains the
header exactly once" as universally stated. -/
theorem C5_counterexample :
    (appendMemoryBankEntry
      ⟨some (.jstr "f.md".data), some (.jstr "see ## D".data),
       some (.jstr "## D".data)⟩
      "2025-01-01 00:00:01".data
      (appendMemoryBankEntry
        ⟨some (.jstr "f.md".data), some (.jstr "x".data),
         some (.jstr "## D".data)⟩
        "2025-01-01 00:00:00".data
        ⟨true, [("f.md".data, .content "A\n".data)]⟩).2).2.files =
      [("f.md".data, .content
        "A\n\n## D\n\n[2025-01-01 00:00:00] - x\n[2025-01-01 00:00:01] - see ## D\n".data)] ∧
    countSub "## D".data
      "A\n\n## D\n\n[2025-01-01 00:00:00] - x\n[2025-01-01 00:00:01] - see ## D\n".data
      = 2 := by
  decide

/-- C5 (amended): for every existing file whose text does not contain the
nonempty header, where the header contains `#` but no newline and neither
entry nor timestamp contains `#`: the first `appendEntry` creates the
header section at the end via the fallback (the header then occurs exactly
once), and the second `appendEntry` under the same header finds that
section and inserts the second entry as a sibling at the end of the same
section — the result is exactly the first file text trimmed of trailing
whitespace followed by a newline and the second trimmed formatted entry —
and the resulting text still contains the header exactly once (no
duplicate header is created). -/
theorem C5_fallback_then_sibling_insert (fs : FSState)
    (ts1 ts2 fileName e1 e2 h t0 : Str)
    (hfn : fileName ≠ []) (he1 : e1 ≠ []) (he2 : e2 ≠ []) (hh : h ≠ [])
    (hfile : lookupFile fs.files fileName = some (.content t0))
    (habsent : countSub h t0 = 0)
    (hnl : '\n' ∉ h) (hhash : '#' ∈ h)
    (hts1 : '#' ∉ ts1) (he1h : '#' ∉ e1) (hts2 : '#' ∉ ts2) (he2h : '#' ∉ e2) :
    countSub h (t0 ++ '\n' :: (h ++ '\n' :: formatEntry ts1 e1)) = 1 ∧
    appendMemoryBankEntry
        ⟨some (.jstr fileName), some (.jstr e1), some (.jstr h)⟩ ts1 fs =
      (.ok ("Appended entry to ".data ++ fileName),
       { dirExists := true,
         files := setFile fs.files fileName
           (.content (t0 ++ '\n' :: (h ++ '\n' :: formatEntry ts1 e1))) }) ∧
    appendMemoryBankEntry
        ⟨some (.jstr fileName), some (.jstr e2), some (.jstr h)⟩ ts2
        { dirExists := true,
          files := setFile fs.files fileName
            (.content (t0 ++ '\n' :: (h ++ '\n' :: formatEntry ts1 e1))) } =
      (.ok ("Appended entry to ".data ++ fileName),
       { dirExists := true,
         files := setFile (setFile fs.files fileName
             (.content (t0 ++ '\n' :: (h ++ '\n' :: formatEntry ts1 e1))))
           fileName
           (.content
             (trimEnd (t0 ++ '\n' :: (h ++ '\n' :: formatEntry ts1 e1)) ++
              '\n' :: '[' :: (ts2 ++ "] - ".data ++ e2 ++ "\n".data))) }) ∧
    countSub h
      (trimEnd (t0 ++ '\n' :: (h ++ '\n' :: formatEntry ts1 e1)) ++
       '\n' :: '[' :: (ts2 ++ "] - ".data ++ e2 ++ "\n".data)) = 1 := by
  have hidx0 : findIdx0 h t0 = none :=
    findIdx0_none_iff.mpr (countSub_eq_zero_iff.mp habsent)
  have hfile' : lookupFile (ensureMemoryBankDir fs).files fileName =
      some (.content t0) := hfile
  have step1 : appendMemoryBankEntry
      ⟨some (.jstr fileName), some (.jstr e1), some (.jstr h)⟩ ts1 fs =
      (.ok ("Appended entry to ".data ++ fileName),
       { dirExists := true,
         files := setFile fs.files fileName
           (.content (t0 ++ '\n' :: (h ++ '\n' :: formatEntry ts1 e1))) }) := by
    rw [appendEntry_header_read fs ts1 fileName e1 h t0 hfn he1 hh hfile]
    rw [appendWithHeader_notfound _ _ _ _ _ hidx0 hfile']
    rfl
  have hfe1mem : '#' ∉ formatEntry ts1 e1 :=
    not_mem_append (not_mem_append (not_mem_append (not_mem_append
      (by decide) hts1) (by decide)) he1h) (by decide)
  have hcount1 : countSub h (t0 ++ '\n' :: (h ++ '\n' :: formatEntry ts1 e1)) = 1 := by
    rw [countSub_split hnl, countSub_split hnl, countSub_self hh, habsent,
      countSub_eq_zero_of_missing hhash hfe1mem]
  have hocc1 : occursAt h (t0 ++ '\n' :: (h ++ '\n' :: formatEntry ts1 e1))
      (t0.length + 1) := by
    have h0 := occursAt_of_append (n := h) (A := t0 ++ ['\n'])
      (B := '\n' :: formatEntry ts1 e1)
    rw [show (t0 ++ ['\n']) ++ (h ++ '\n' :: formatEntry ts1 e1) =
      t0 ++ '\n' :: (h ++ '\n' :: formatEntry ts1 e1) by simp] at h0
    simpa using h0
  have hidx1 : findIdx0 h (t0 ++ '\n' :: (h ++ '\n' :: formatEntry ts1 e1)) =
      some (t0.length + 1) := findIdx0_of_count_one hh hcount1 hocc1
  have hfileA : lookupFile (setFile fs.files fileName
      (.content (t0 ++ '\n' :: (h ++ '\n' :: formatEntry ts1 e1)))) fileName =
      some (.content (t0 ++ '\n' :: (h ++ '\n' :: formatEntry ts1 e1))) :=
    lookupFile_setFile _ _ _
  have hfileA' : lookupFile (ensureMemoryBankDir
      { dirExists := true,
        files := setFile fs.files fileName
          (.content (t0 ++ '\n' :: (h ++ '\n' :: formatEntry ts1 e1))) }).files
      fileName =
      some (.content (t0 ++ '\n' :: (h ++ '\n' :: formatEntry ts1 e1))) :=
    lookupFile_setFile _ _ _
  have hs2 : (t0.length + 1) + h.length ≤
      (t0 ++ '\n' :: (h ++ '\n' :: formatEntry ts1 e1)).length := by
    simp
    omega
  have hdropA : (t0 ++ '\n' :: (h ++ '\n' :: formatEntry ts1 e1)).drop
      ((t0.length + 1) + h.length) = '\n' :: formatEntry ts1 e1 := by
    rw [show t0 ++ '\n' :: (h ++ '\n' :: formatEntry ts1 e1) =
      ((t0 ++ ['\n']) ++ h) ++ ('\n' :: formatEntry ts1 e1) by simp]
    rw [show (t0.length + 1) + h.length = ((t0 ++ ['\n']) ++ h).length by
      simp; omega]
    exact List.drop_left _ _
  have hnoocc2 : ∀ k, ¬ occursAt "\n##".data ('\n' :: formatEntry ts1 e1) k := by
    apply countSub_eq_zero_iff.mp
    apply countSub_eq_zero_of_missing (c := '#') (by decide)
    intro hm
    rcases List.mem_cons.mp hm with h' | h'
    · exact absurd h' (by decide)
    · exact hfe1mem h'
  have hnone2 : jsIndexOfFrom (t0 ++ '\n' :: (h ++ '\n' :: formatEntry ts1 e1))
      "\n##".data ((t0.length + 1) + h.length) = none := by
    apply jsIndexOfFrom_eq_none hs2
    apply no_occurs_from_of_drop
    rw [hdropA]
    exact hnoocc2
  have hfe2cons : formatEntry ts2 e2 =
      '\n' :: '[' :: (ts2 ++ "] - ".data ++ e2 ++ "\n".data) := by
    simp [formatEntry]
  have htrim2 : trimStart (formatEntry ts2 e2) =
      '[' :: (ts2 ++ "] - ".data ++ e2 ++ "\n".data) := by
    rw [hfe2cons]
    exact trimStart_two (by decide) (by decide) _
  have step2 : appendMemoryBankEntry
      ⟨some (.jstr fileName), some (.jstr e2), some (.jstr h)⟩ ts2
      { dirExists := true,
        files := setFile fs.files fileName
          (.content (t0 ++ '\n' :: (h ++ '\n' :: formatEntry ts1 e1))) } =
      (.ok ("Appended entry to ".data ++ fileName),
       { dirExists := true,
         files := setFile (setFile fs.files fileName
             (.content (t0 ++ '\n' :: (h ++ '\n' :: formatEntry ts1 e1))))
           fileName
           (.content
             (trimEnd (t0 ++ '\n' :: (h ++ '\n' :: formatEntry ts1 e1)) ++
              '\n' :: '[' :: (ts2 ++ "] - ".data ++ e2 ++ "\n".data))) }) := by
    rw [appendEntry_header_read _ ts2 fileName e2 h _ hfn he2 hh hfileA]
    rw [appendWithHeader_found _ _ _ _ _ _ hidx1 hfileA']
    rw [hnone2]
    simp only [Option.getD_none]
    rw [List.take_length, List.drop_length, List.append_nil, htrim2]
    rfl
  have hfe1cons : formatEntry ts1 e1 =
      '\n' :: '[' :: (ts1 ++ "] - ".data ++ e1 ++ "\n".data) := by
    simp [formatEntry]
  have htrimEq : trimEnd (t0 ++ '\n' :: (h ++ '\n' :: formatEntry ts1 e1)) =
      (t0 ++ ['\n']) ++ (h ++ (['\n', '\n'] ++ '[' ::
        trimEnd (ts1 ++ "] - ".data ++ e1 ++ "\n".data))) := by
    rw [hfe1cons]
    rw [show t0 ++ '\n' :: (h ++ '\n' ::
        ('\n' :: '[' :: (ts1 ++ "] - ".data ++ e1 ++ "\n".data))) =
      (t0 ++ '\n' :: (h ++ ['\n', '\n'])) ++
        '[' :: (ts1 ++ "] - ".data ++ e1 ++ "\n".data) by simp]
    rw [trimEnd_append_cons (by decide)]
    simp
  have hocc_trim : occursAt h
      (trimEnd (t0 ++ '\n' :: (h ++ '\n' :: formatEntry ts1 e1)))
      (t0.length + 1) := by
    rw [htrimEq]
    have h0 := occursAt_of_append (n := h) (A := t0 ++ ['\n'])
      (B := ['\n', '\n'] ++ '[' ::
        trimEnd (ts1 ++ "] - ".data ++ e1 ++ "\n".data))
    simpa using h0
  have hR2 : '#' ∉ '[' :: (ts2 ++ "] - ".data ++ e2 ++ "\n".data) := by
    intro hm
    rcases List.mem_cons.mp hm with h' | h'
    · exact absurd h' (by decide)
    · exact (not_mem_append (not_mem_append (not_mem_append hts2 (by decide))
        he2h) (by decide)) h'
  have hcountF : countSub h
      (trimEnd (t0 ++ '\n' :: (h ++ '\n' :: formatEntry ts1 e1)) ++
       '\n' :: '[' :: (ts2 ++ "] - ".data ++ e2 ++ "\n".data)) = 1 := by
    rw [countSub_split hnl, countSub_eq_zero_of_missing hhash hR2]
    have hle : countSub h
        (trimEnd (t0 ++ '\n' :: (h ++ '\n' :: formatEntry ts1 e1))) ≤ 1 := by
      obtain ⟨r, hr⟩ :=
        trimEnd_is_prefix (t0 ++ '\n' :: (h ++ '\n' :: formatEntry ts1 e1))
      calc countSub h (trimEnd (t0 ++ '\n' :: (h ++ '\n' :: formatEntry ts1 e1)))
          ≤ countSub h (trimEnd (t0 ++ '\n' ::
              (h ++ '\n' :: formatEntry ts1 e1)) ++ r) := countSub_le_append _ _ _
        _ = 1 := by rw [hr]; exact hcount1
    have hge : 1 ≤ countSub h
        (trimEnd (t0 ++ '\n' :: (h ++ '\n' :: formatEntry ts1 e1))) :=
      countSub_pos_of_occurs hocc_trim
    omega
  exact ⟨hcount1, step1, step2, hcountF⟩

end MemoryBank

namespace MemoryBank

/-- Closed instance of the amended C5. -/
theorem C5_witness :
    countSub "## D".data "A\n".data = 0 ∧ '#' ∈ "## D".data ∧
    (countSub "## D".data ("A\n".data ++ '\n' :: ("## D".data ++ '\n' ::
        formatEntry "2025-01-01 00:00:00".data "x".data)) = 1 ∧
     appendMemoryBankEntry
        ⟨some (.jstr "f.md".data), some (.jstr "x".data), some (.jstr "## D".data)⟩
        "2025-01-01 00:00:00".data ⟨true, [("f.md".data, .content "A\n".data)]⟩ =
       (.ok ("Appended entry to ".data ++ "f.md".data),
        { dirExists := true,
          files := setFile [("f.md".data, .content "A\n".data)] "f.md".data
            (.content ("A\n".data ++ '\n' :: ("## D".data ++ '\n' ::
              formatEntry "2025-01-01 00:00:00".data "x".data))) }) ∧
     appendMemoryBankEntry
        ⟨some (.jstr "f.md".data), some (.jstr "y".data), some (.jstr "## D".data)⟩
        "2025-01-01 00:00:01".data
        { dirExists := true,
          files := setFile [("f.md".data, .content "A\n".data)] "f.md".data
            (.content ("A\n".data ++ '\n' :: ("## D".data ++ '\n' ::
              formatEntry "2025-01-01 00:00:00".data "x".data))) } =
       (.ok ("Appended entry to ".data ++ "f.md".data),
        { dirExists := true,
          files := setFile (setFile [("f.md".data, .content "A\n".data)]
              "f.md".data
              (.content ("A\n".data ++ '\n' :: ("## D".data ++ '\n' ::
                formatEntry "2025-01-01 00:00:00".data "x".data)))) "f.md".data
            (.content (trimEnd ("A\n".data ++ '\n' :: ("## D".data ++ '\n' ::
                formatEntry "2025-01-01 00:00:00".data "x".data)) ++
              '\n' :: '[' :: ("2025-01-01 00:00:01".data ++ "] - ".data ++
                "y".data ++ "\n".data))) }) ∧
     countSub "## D".data
       (trimEnd ("A\n".data ++ '\n' :: ("## D".data ++ '\n' ::
          formatEntry "2025-01-01 00:00:00".data "x".data)) ++
        '\n' :: '[' :: ("2025-01-01 00:00:01".data ++ "] - ".data ++
          "y".data ++ "\n".data)) = 1) :=
  ⟨by decide, by decide,
   C5_fallback_then_sibling_insert ⟨true, [("f.md".data, .content "A\n".data)]⟩
     "2025-01-01 00:00:00".data "2025-01-01 00:00:01".data "f.md".data
     "x".data "y".data "## D".data "A\n".data
     (by decide) (by decide) (by decide) (by decide) (by decide) (by decide)
     (by decide) (by decide) (by decide) (by decide) (by decide) (by decide)⟩

end MemoryBank

/-! ### Claim C6 -/

namespace MemoryBank

theorem initLoop_cons {brief : Option Str} {ts : Str} {ft : Str × Str}
    {rest : List (Str × Str)} {fs : FSState} {msgs : List Str}
    {fs' : FSState} {msgs' : List Str}
    (h : initOneFile brief ts fs msgs ft = .ok (fs', msgs')) :
    initLoop brief ts (ft :: rest) fs msgs = initLoop brief ts rest fs' msgs' := by
  show (match initOneFile brief ts fs msgs ft with
    | .ok (fs', msgs') => initLoop brief ts rest fs' msgs'
    | .error m => (fs, .error m)) = _
  rw [h]

theorem initOneFile_pc_brief (bv ts : Str) (hbv : ¬ bv = []) :
    initOneFile (some bv) ts ⟨true, []⟩ []
      ("productContext.md".data,
       "# Product Context\n\nThis file provides a high-level overview...\n\n*".data) =
      .ok (⟨true, [("productContext.md".data, .content
        (replaceFirst
          "# Product Context\n\nThis file provides a high-level overview...\n\n*".data
          "...".data
          ("based on project brief:\n\n".data ++ bv ++ "\n\n...".data)))]⟩,
        ["Created file: ".data ++ "productContext.md".data]) := by
  have h1 : replaceFirst
      "# Product Context\n\nThis file provides a high-level overview...\n\n*".data
      timestampToken ts =
      "# Product Context\n\nThis file provides a high-level overview...\n\n*".data :=
    rfl
  simp only [initOneFile, lookupFile, h1, if_neg hbv, writeFileFS, setFile]
  rfl

/-- One `initialize` run starting from an empty (or absent) memory-bank
directory creates exactly the five canonical files, in registry order,
each with some non-empty content (`productContext.md`'s content depends on
the optional brief). -/
theorem initFromEmpty (b : Bool) (brief : Option Str) (ts : Str) :
    ∃ c : Str, c ≠ [] ∧
      initializeMemoryBank brief ts ⟨b, []⟩ =
        (.success ["Created file: ".data ++ "productContext.md".data,
                   "Created file: ".data ++ "activeContext.md".data,
                   "Created file: ".data ++ "progress.md".data,
                   "Created file: ".data ++ "decisionLog.md".data,
                   "Created file: ".data ++ "systemPatterns.md".data],
         ⟨true, [("productContext.md".data, .content c),
           ("activeContext.md".data, .content
             "# Active Context\n\nThis file tracks the project's current status...\n\n*".data),
           ("progress.md".data, .content
             "# Progress\n\nThis file tracks the project's progress...\n\n*".data),
           ("decisionLog.md".data, .content
             "# Decision Log\n\nThis file records architectural and implementation decisions...\n\n*".data),
           ("systemPatterns.md".data, .content
             "# System Patterns *Optional*\n\nThis file documents recurring patterns...\n\n*".data)]⟩) := by
  rcases brief with _ | bv
  · exact ⟨"# Product Context\n\nThis file provides a high-level overview...\n\n*".data,
      by decide, rfl⟩
  · by_cases hbv : bv = []
    · subst hbv
      exact ⟨"# Product Context\n\nThis file provides a high-level overview...\n\n*".data,
        by decide, rfl⟩
    · refine ⟨replaceFirst
        "# Product Context\n\nThis file provides a high-level overview...\n\n*".data
        "...".data
        ("based on project brief:\n\n".data ++ bv ++ "\n\n...".data), ?_, ?_⟩
      · show ("# Product Context\n\nThis file provides a high-level overview".data ++
          ("based on project brief:\n\n".data ++ bv ++ "\n\n...".data) ++
          "\n\n*".data) ≠ []
        simp
      · show (match initLoop (some bv) ts INITIAL_FILES ⟨true, []⟩ [] with
          | (fs2, Except.ok msgs) => (InitResult.success msgs, fs2)
          | (fs2, Except.error m) => (InitResult.error m, fs2)) = _
        rw [show INITIAL_FILES =
          ("productContext.md".data,
           "# Product Context\n\nThis file provides a high-level overview...\n\n*".data)
          :: [("activeContext.md".data,
               "# Active Context\n\nThis file tracks the project's current status...\n\n*".data),
              ("progress.md".data,
               "# Progress\n\nThis file tracks the project's progress...\n\n*".data),
              ("decisionLog.md".data,
               "# Decision Log\n\nThis file records architectural and implementation decisions...\n\n*".data),
              ("systemPatterns.md".data,
               "# System Patterns *Optional*\n\nThis file documents recurring patterns...\n\n*".data)]
          from rfl]
        rw [initLoop_cons (initOneFile_pc_brief bv ts hbv)]
        rfl

/-- C6: starting from an empty (or absent) memory-bank directory, one
`initialize` run creates exactly the five canonical files, each with
non-empty content; a second `initialize` run leaves the whole filesystem
state (in particular every file's content) unchanged and its result lists
an "already exists" note for each of the five files. -/
theorem C6_init_idempotent (b : Bool) (brief brief2 : Option Str) (ts1 ts2 : Str) :
    ((initializeMemoryBank brief ts1 ⟨b, []⟩).2.files.map Prod.fst =
      ["productContext.md".data, "activeContext.md".data, "progress.md".data,
       "decisionLog.md".data, "systemPatterns.md".data]) ∧
    (∀ p ∈ (initializeMemoryBank brief ts1 ⟨b, []⟩).2.files,
      ∃ c : Str, c ≠ [] ∧ p.2 = .content c) ∧
    initializeMemoryBank brief2 ts2 (initializeMemoryBank brief ts1 ⟨b, []⟩).2 =
      (.success
        ["File ".data ++ "productContext.md".data ++ " already exists.".data,
         "File ".data ++ "activeContext.md".data ++ " already exists.".data,
         "File ".data ++ "progress.md".data ++ " already exists.".data,
         "File ".data ++ "decisionLog.md".data ++ " already exists.".data,
         "File ".data ++ "systemPatterns.md".data ++ " already exists.".data],
       (initializeMemoryBank brief ts1 ⟨b, []⟩).2) := by
  obtain ⟨c, hc, heq⟩ := initFromEmpty b brief ts1
  rw [heq]
  refine ⟨rfl, ?_, rfl⟩
  intro p hp
  simp only [List.mem_cons, List.not_mem_nil, or_false] at hp
  rcases hp with rfl | rfl | rfl | rfl | rfl
  · exact ⟨c, hc, rfl⟩
  · exact ⟨_, by decide, rfl⟩
  · exact ⟨_, by decide, rfl⟩
  · exact ⟨_, by decide, rfl⟩
  · exact ⟨_, by decide, rfl⟩

end MemoryBank
